import Mathlib

/-!
# Verification of the mention-bot core pipeline (src/mention-bot.js)

Shallow embedding of the algorithmic core of `mention-bot.js`:

* the diff parser (`parseDiffFile`, `parseDiff`, source lines 75-165);
* the file-selection logic inside `checkRepoPath` (source lines 340-351);
* the reviewer filters `filterOwnTeam` (189-223) and `filterPrivateRepo` (264-277);
* the owner lookup `getPathInfo` (279-315) and the pure tail of
  `checkRepoPath` (333-353).

JavaScript strings are modelled as `List Char` (`JStr`); the JS value
`undefined` arising from popping an empty array is modelled by `Option` or by
explicit empty-list cases, and a JS exception by `Except`.  The source pops
from a reversed array (a queue read from the front); we model the queue
directly: `pop` takes the head of the list, pushing a popped line back is
consing it back on.
-/

set_option autoImplicit false

namespace MentionBot

/-- JavaScript strings, modelled as their character lists. -/
abbrev JStr := List Char

/-- Character list of a Lean string literal, used to write concrete JS strings. -/
def chars (s : String) : JStr := s.data

/-- Source lines 71-73: `startsWith(str, start)` is
`str.substr(0, start.length) === start`. -/
def startsWith (str start : JStr) : Bool :=
  str.take start.length == start

/-- Model of the JS `string.split(sep)` (used with `'\n'` at source line 155 and
`"/"` at line 302): splits at every separator, keeping empty pieces, and yields
`[[]]` on the empty string. -/
def splitOn (sep : Char) : JStr → List JStr
  | [] => [[]]
  | c :: rest =>
    if c = sep then [] :: splitOn sep rest
    else
      match splitOn sep rest with
      | l :: ls => (c :: l) :: ls
      | [] => [[c]]

/-- Whitespace removed by JS `String.prototype.trim` (the characters relevant
to diff text; source line 155). -/
def isJsWhitespace (c : Char) : Bool :=
  c = ' ' || c = '\t' || c = '\n' || c = '\r' ||
  c = '\x0b' || c = '\x0c' || c = ' ' || c = '﻿'

/-- Model of JS `diff.trim()` (source line 155). -/
def jsTrim (s : JStr) : JStr :=
  ((s.dropWhile isJsWhitespace).reverse.dropWhile isJsWhitespace).reverse

/-- Numeric value of a digit string, the value JS `+from_line` gives it
(source line 128). -/
def digitsToNat (ds : JStr) : Nat :=
  ds.foldl (fun n c => n * 10 + (c.toNat - '0'.toNat)) 0

/-- The record type `FileInfo` of source lines 50-53: a path and the 1-based
original-file line numbers recorded as deleted. -/
structure FileInfo where
  path : JStr
  deletedLines : List Nat
deriving Repr, DecidableEq

/-- The errors the embedded code can raise.  `invalidHeader` and
`missingPlusPlusPlus` are the two explicit `throw new Error(...)` sites of
`parseDiffFile` (source lines 81 and 105) — the spec's `MalformedDiffError`.
`typeError` models the JS `TypeError` thrown when a method or property is read
off `undefined` (popping an exhausted line array, or the undefined `fullPath`
of `getPathInfo`, source line 298). -/
inductive JsError where
  | invalidHeader (line : JStr)
  | missingPlusPlusPlus (line : JStr)
  | typeError
deriving Repr, DecidableEq

/-- Matcher for the tail of the hunk-header regex
`^\@\@ -([0-9]+),?([0-9]+)? \+([0-9]+),?([0-9]+)? \@\@` (source line 118),
applied after the literal `"@@ -"`.  Returns the numeric value of the first
capture group (the minus-side start line).  Greedy matching of `[0-9]+`
followed by an optional comma and optional digits is maximal-munch, which for
this pattern coincides with the backtracking regex semantics. -/
def parseHunkHeaderNums (rest : JStr) : Option Nat :=
  let d1 := rest.takeWhile Char.isDigit
  let r1 := rest.dropWhile Char.isDigit
  if d1.isEmpty then none else
  let r2 := match r1 with | ',' :: t => t | _ => r1
  let r3 := r2.dropWhile Char.isDigit
  match r3 with
  | ' ' :: '+' :: r4 =>
    let d3 := r4.takeWhile Char.isDigit
    let r5 := r4.dropWhile Char.isDigit
    if d3.isEmpty then none else
    let r6 := match r5 with | ',' :: t => t | _ => r5
    let r7 := r6.dropWhile Char.isDigit
    match r7 with
    | ' ' :: '@' :: '@' :: _ => some (digitsToNat d1)
    | _ => none
  | _ => none

/-- Full hunk-header match of source line 118: `line.match(/^\@\@ -... \@\@/)`,
yielding the minus-side start line (`matches[1]` converted by `+from_line`,
lines 123-128), or `none` when the regex does not match. -/
def parseHunkHeader (line : JStr) : Option Nat :=
  match line with
  | '@' :: '@' :: ' ' :: '-' :: rest => parseHunkHeaderNums rest
  | _ => none

/-- Path extraction of source line 83:
`line.replace(/^diff --git a\/(.+) b\/.+/g, '$1')`.  The greedy `(.+)` takes
the longest split, i.e. the last occurrence of `" b/"` that still leaves at
least one character after it; when the regex does not match, JS `replace`
returns the line unchanged. -/
def extractPath (line : JStr) : JStr :=
  if startsWith line (chars "diff --git a/") then
    let rem := line.drop (chars "diff --git a/").length
    let split := (List.range rem.length).foldl
      (fun acc i =>
        if decide (1 ≤ i) && startsWith (rem.drop i) (chars " b/") &&
           decide (i + 3 < rem.length)
        then some i else acc)
      none
    match split with
    | some i => rem.take i
    | none => line
  else line

/-- The hunk-body loop of source lines 109-138.  State: the remaining lines,
the cursor `currentFromLine`, and the accumulated `deletedLines`.  A
`diff --git` line ends the loop and is pushed back (lines 111-114); a line
starting with `@@` resets the cursor when the header regex matches and is
otherwise skipped (lines 117-130); any other line records the cursor if it
starts with `-` (lines 132-134) and advances the cursor unless it starts with
`+` (lines 135-137).  Returns the deleted lines and the remaining input. -/
def hunkLoop : List JStr → Nat → List Nat → List Nat × List JStr
  | [], _, deleted => (deleted, [])
  | line :: rest, currentFromLine, deleted =>
    if startsWith line (chars "diff --git") then (deleted, line :: rest)
    else if startsWith line (chars "@@") then
      match parseHunkHeader line with
      | some n => hunkLoop rest n deleted
      | none => hunkLoop rest currentFromLine deleted
    else
      hunkLoop rest
        (if startsWith line (chars "+") then currentFromLine
         else currentFromLine + 1)
        (if startsWith line (chars "-") then deleted ++ [currentFromLine]
         else deleted)

/-- Source lines 92-139: the body of a diff block after the header and
mode/index lines.  The popped line may be absent (`pop` of an exhausted array,
line 93) or empty — both falsy, taking the no-body branch; a `diff --git` line
is pushed back (line 96); `Binary files` is skipped (line 97); `--- ` demands
a following `+++ ` line (lines 101-106) and then runs the hunk loop starting
with `currentFromLine = 0` (line 108); any other line falls through all
branches with no hunk body. -/
def parseHunks : List JStr → Except JsError (List Nat × List JStr)
  | [] => .ok ([], [])
  | l :: rest =>
    if l.isEmpty then .ok ([], rest)
    else if startsWith l (chars "diff --git") then .ok ([], l :: rest)
    else if startsWith l (chars "Binary files") then .ok ([], rest)
    else if startsWith l (chars "--- ") then
      match rest with
      | [] => .error .typeError
      | l5 :: rest5 =>
        if startsWith l5 (chars "+++ ") then .ok (hunkLoop rest5 0 [])
        else .error (.missingPlusPlusPlus l5)
    else .ok ([], rest)

/-- Source lines 86-139: everything after the `diff --git` header line of one
block.  Popping the index line off an exhausted array yields `undefined`, and
`startsWith(undefined, ...)` throws a `TypeError` (line 87); when the popped
line is a `deleted file`/`new file` mode line one further line is discarded
(lines 87-90). -/
def parseDiffBody : List JStr → Except JsError (List Nat × List JStr)
  | [] => .error .typeError
  | l2 :: rest2 =>
    if startsWith l2 (chars "deleted file") || startsWith l2 (chars "new file")
    then parseHunks rest2.tail
    else parseHunks rest2

/-- Source lines 75-145: `parseDiffFile(lines)`.  Consumes one diff block from
the front of the line queue, returning its `FileInfo` and the unconsumed
lines.  A first line failing `/^diff --git a\//` raises the first
`MalformedDiffError` (lines 80-82); popping the header off an empty queue
would be `undefined.match`, a `TypeError`. -/
def parseDiffFile (lines : List JStr) : Except JsError (FileInfo × List JStr) :=
  match lines with
  | [] => .error .typeError
  | line :: rest =>
    if startsWith line (chars "diff --git a/") then
      match parseDiffBody rest with
      | .error e => .error e
      | .ok (deletedLines, remaining) =>
        .ok ({ path := extractPath line, deletedLines := deletedLines }, remaining)
    else .error (.invalidHeader line)

/-- The `while (lines.length > 0) files.push(parseDiffFile(lines))` loop of
source lines 160-162.  Each iteration consumes at least the block's header
line, so the loop runs at most `lines.length` times; the fuel argument is
initialised to exactly that bound by `parseDiff` and provably never runs out
(`parseDiffLoopGo_fuel_irrelevant` below). -/
def parseDiffLoopGo : Nat → List JStr → Except JsError (List FileInfo)
  | _, [] => .ok []
  | 0, _ :: _ => .ok []
  | fuel + 1, l :: rest =>
    match parseDiffFile (l :: rest) with
    | .error e => .error e
    | .ok (fi, remaining) =>
      match parseDiffLoopGo fuel remaining with
      | .error e => .error e
      | .ok fis => .ok (fi :: fis)

/-- Source lines 147-165: `parseDiff(diff)`.  Empty input (`!diff`) or input
not matching `/^diff/` yields the empty list (lines 151-153, best effort);
otherwise the trimmed input is split into lines and consumed block by block. -/
def parseDiff (diff : JStr) : Except JsError (List FileInfo) :=
  if diff.isEmpty then .ok []
  else if !startsWith diff (chars "diff") then .ok []
  else
    let lines := splitOn '\n' (jsTrim diff)
    parseDiffLoopGo lines.length lines

/-- The `WhitelistUser` record of source lines 55-59. -/
structure WhitelistUser where
  name : JStr
  files : List JStr
  skipTeamPrs : Bool
deriving Repr, DecidableEq

/-- The `TeamData` record of source lines 61-64. -/
structure TeamData where
  name : JStr
  id : Nat
deriving Repr, DecidableEq

/-- The `TeamMembership` record of source lines 66-69. -/
structure TeamMembership where
  name : JStr
  state : JStr
deriving Repr, DecidableEq

/-- Source lines 189-223: `filterOwnTeam(users, owners, creator, org, github)`.
The remote collaborators `getTeams` (the org's team list, paginated
internally) and `getTeamMembership` (the creator's membership record for one
team) are declared but not defined in this source file; modelled from the
spec's gateway contract (§6) as function parameters.  The result is the
filtered owner list together with the number of team-listing calls and the
number of membership-fetch calls actually performed: the fast path of lines
196-200 returns the owners unchanged with no calls; otherwise one team-listing
call is made and one membership fetch per team surviving the name filter
(lines 205-214). -/
def filterOwnTeam (getTeams : List TeamData)
    (getTeamMembership : JStr → TeamData → TeamMembership)
    (users : List WhitelistUser) (owners : List JStr) (creator : JStr) :
    List JStr × Nat × Nat :=
  if !users.any (fun user => user.skipTeamPrs) then
    (owners, 0, 0)
  else
    let teamData := getTeams.filter fun team =>
      users.any fun user => user.skipTeamPrs && user.name == team.name
    let teamMemberships := teamData.map fun teamInfo =>
      getTeamMembership creator teamInfo
    let active := teamMemberships.filter fun membership =>
      membership.state == chars "active"
    (owners.filter fun owner =>
      !active.any fun membership => owner == membership.name,
     1, teamData.length)

/-- Source lines 264-277: `filterPrivateRepo(owners, org, github)`.  The
member roster `currentMembers` is fetched by the collaborator
`getMembersOfOrg`, declared but not defined in this source file; modelled from
the spec's gateway contract (§6) as the already-fetched list parameter.  An
owner passes iff some current member equals it (lines 271-276). -/
def filterPrivateRepo (currentMembers : List JStr) (owners : List JStr) :
    List JStr :=
  owners.filter fun owner =>
    currentMembers.any fun member => member == owner

/-- The possible values of `filteredPathInfo` in `getPathInfo` (source lines
289, 299, 308): the initial empty array, the `undefined` read of
`pathInfo[0]` on an empty configuration, or a configuration entry. -/
inductive PathLookupResult (α : Type) where
  | emptyArr
  | undef
  | entry (a : α)
deriving Repr, DecidableEq

/-- The `pathInfo.forEach` of source lines 306-311: the last entry whose
`path` equals the target string wins (each match overwrites
`filteredPathInfo`). -/
def lastMatch {α : Type} (pathOf : α → JStr) (pathInfo : List α)
    (target : JStr) : Option α :=
  pathInfo.foldl (fun acc entry => if pathOf entry == target then some entry else acc)
    none

/-- The `while (!foundMatch && splitPath.length > 0)` loop of source lines
304-312: repeatedly drop the last path segment and look for an entry whose
`path` equals the rejoined segments followed by `"/"`; stop at the first
(i.e. longest) truncation with a match. -/
def pathLookupLoop {α : Type} (pathOf : α → JStr) (pathInfo : List α) :
    List JStr → PathLookupResult α
  | [] => .emptyArr
  | s :: sp =>
    match lastMatch pathOf pathInfo
        ((chars "/").intercalate ((s :: sp).dropLast) ++ chars "/") with
    | some e => .entry e
    | none => pathLookupLoop pathOf pathInfo ((s :: sp).dropLast)
termination_by sp => sp.length
decreasing_by simp

/-- Pure lookup core of `getPathInfo` once `fullPath` is known (source lines
298-313): a path without `"/"` selects `pathInfo[0]` (or `undefined` when the
configuration is empty); otherwise the truncation loop runs on the split
path.  The configuration `config.pathInfo` comes from the external config
module; its entries are an abstract type `α` with a `path` accessor. -/
def pathInfoLookup {α : Type} (pathOf : α → JStr) (pathInfo : List α)
    (fullPath : JStr) : PathLookupResult α :=
  if !fullPath.contains '/' then
    match pathInfo with
    | [] => .undef
    | e :: _ => .entry e
  else
    pathLookupLoop pathOf pathInfo (splitOn '/' fullPath)

/-- Source lines 279-315: `getPathInfo(files, ...)`.  The
`files.filter(function (file) { fullPath = file.path; })` of lines 294-296
returns a falsy value for every file, so the filter result is discarded and
its only effect is leaving `fullPath` equal to the **last** file's path; on an
empty list `fullPath` stays `undefined` and `fullPath.indexOf("/")` at line
298 throws a `TypeError`. -/
def getPathInfo {α : Type} (pathOf : α → JStr) (pathInfo : List α)
    (files : List FileInfo) : Except JsError (PathLookupResult α) :=
  match (files.map (fun file => file.path)).getLast? with
  | none => .error .typeError
  | some fullPath => .ok (pathInfoLookup pathOf pathInfo fullPath)

/-- Source lines 340-351 inside `checkRepoPath`: sort the parsed files
descending by `deletedLines.length` (the comparator of lines 340-344; JS sort
is stable, modelled by `mergeSort`), then drop every file whose path matches
some blacklist glob (lines 346-350; the external `minimatch` library is the
parameter `minimatch`), then keep the first `numFilesToCheck` files
(line 351). -/
def selectFiles (minimatch : JStr → JStr → Bool) (fileBlacklist : List JStr)
    (numFilesToCheck : Nat) (files : List FileInfo) : List FileInfo :=
  let sorted := files.mergeSort fun a b =>
    decide (b.deletedLines.length ≤ a.deletedLines.length)
  let filtered := fileBlacklist.foldl
    (fun fs glob => fs.filter fun file => !minimatch file.path glob) sorted
  filtered.take numFilesToCheck

/-- Source lines 317-354: the pure tail of `checkRepoPath` once the diff text
has been fetched (the fetch and cache of lines 327-332 are I/O collaborators):
parse the diff (a thrown parse error propagates), select the files, and run
the owner lookup. -/
def checkRepoPath {α : Type} (pathOf : α → JStr) (pathInfo : List α)
    (minimatch : JStr → JStr → Bool) (fileBlacklist : List JStr)
    (numFilesToCheck : Nat) (diff : JStr) :
    Except JsError (PathLookupResult α) :=
  match parseDiff diff with
  | .error e => .error e
  | .ok files =>
    getPathInfo pathOf pathInfo (selectFiles minimatch fileBlacklist numFilesToCheck files)

/-- The first line of a raw diff text: the characters before the first
newline.  Used to state the top-level recognition check of `parseDiff`. -/
def firstLine (s : JStr) : JStr :=
  s.takeWhile fun c => c != '\n'

/-! ### Supporting lemmas -/

theorem startsWith_any_nil (s : JStr) : startsWith s [] = true := by
  cases s <;> rfl

theorem startsWith_cons_cons (a c : Char) (as cs : JStr) :
    startsWith (a :: as) (c :: cs) = (a == c && startsWith as cs) := rfl

theorem startsWith_head {l : JStr} {c : Char} {cs : JStr}
    (h : startsWith l (c :: cs) = true) : ∃ t, l = c :: t := by
  cases l with
  | nil => simp [startsWith] at h
  | cons a as =>
    rw [startsWith_cons_cons, Bool.and_eq_true, beq_iff_eq] at h
    exact ⟨as, by rw [h.1]⟩

theorem startsWith_false_of_head_ne {a c : Char} (as cs : JStr) (h : a ≠ c) :
    startsWith (a :: as) (c :: cs) = false := by
  rw [startsWith_cons_cons]
  simp [h]

theorem isEmpty_false_of_startsWith {l : JStr} {c : Char} {cs : JStr}
    (h : startsWith l (c :: cs) = true) : l.isEmpty = false := by
  obtain ⟨t, rfl⟩ := startsWith_head h
  rfl

theorem startsWith_takeWhile (p : Char → Bool) :
    ∀ (pre s : JStr), pre.all p = true →
      startsWith (s.takeWhile p) pre = startsWith s pre
  | [], s, _ => by rw [startsWith_any_nil, startsWith_any_nil]
  | c :: cs, [], _ => rfl
  | c :: cs, a :: as, h => by
    rw [List.all_cons, Bool.and_eq_true] at h
    rw [List.takeWhile_cons]
    by_cases hpa : p a = true
    · rw [if_pos hpa, startsWith_cons_cons, startsWith_cons_cons,
        startsWith_takeWhile p cs as h.2]
    · have hac : a ≠ c := fun hac => hpa (hac ▸ h.1)
      rw [if_neg hpa, startsWith_false_of_head_ne as cs hac]
      rfl

theorem parseHunkHeader_shape {line : JStr} {n : Nat}
    (h : parseHunkHeader line = some n) :
    startsWith line (chars "@@") = true ∧
    startsWith line (chars "diff --git") = false := by
  unfold parseHunkHeader at h
  split at h
  · next rest => exact ⟨rfl, rfl⟩
  · exact absurd h (by simp)

/-! ### Claim C1 -/

/-- C1: hunk parsing.  A matched `@@` header sets the cursor to its
minus-side start line; a `@@`-prefixed line failing the header regex is
skipped with no cursor change; a `diff --git` line ends the hunk body (pushed
back for the next block); every other body line appends the cursor to
`deletedLines` exactly when it starts with `-`, and advances the cursor
exactly when it does not start with `+`.  On the worked example diff of §8,
`parse` yields exactly one record, for path `foo.js` with `deletedLines = [2]`. -/
theorem claim_C1 :
    (∀ (line : JStr) (rest : List JStr) (cur : Nat) (deleted : List Nat)
        (n : Nat), parseHunkHeader line = some n →
        hunkLoop (line :: rest) cur deleted = hunkLoop rest n deleted) ∧
    (∀ (line : JStr) (rest : List JStr) (cur : Nat) (deleted : List Nat),
        startsWith line (chars "@@") = true → parseHunkHeader line = none →
        hunkLoop (line :: rest) cur deleted = hunkLoop rest cur deleted) ∧
    (∀ (line : JStr) (rest : List JStr) (cur : Nat) (deleted : List Nat),
        startsWith line (chars "diff --git") = true →
        hunkLoop (line :: rest) cur deleted = (deleted, line :: rest)) ∧
    (∀ (line : JStr) (rest : List JStr) (cur : Nat) (deleted : List Nat),
        startsWith line (chars "diff --git") = false →
        startsWith line (chars "@@") = false →
        hunkLoop (line :: rest) cur deleted =
          hunkLoop rest
            (if startsWith line (chars "+") then cur else cur + 1)
            (if startsWith line (chars "-") then deleted ++ [cur]
             else deleted)) ∧
    parseDiff (chars "diff --git a/foo.js b/foo.js\nindex 83db48f..bf269c4 100644\n--- a/foo.js\n+++ b/foo.js\n@@ -1,3 +1,3 @@\n line1\n-line2\n+line2 modified\n line3")
      = .ok [⟨chars "foo.js", [2]⟩] := by
  refine ⟨fun line rest cur deleted n h => ?_,
    fun line rest cur deleted hat h => ?_,
    fun line rest cur deleted h => ?_,
    fun line rest cur deleted hgit hat => ?_, rfl⟩
  · obtain ⟨hat, hgit⟩ := parseHunkHeader_shape h
    rw [hunkLoop, if_neg (by simp [hgit]), if_pos hat, h]
  · have hgit : startsWith line (chars "diff --git") = false := by
      obtain ⟨t, rfl⟩ := startsWith_head hat
      exact startsWith_false_of_head_ne _ _ (by decide)
    rw [hunkLoop, if_neg (by simp [hgit]), if_pos hat, h]
  · rw [hunkLoop, if_pos h]
  · rw [hunkLoop, if_neg (by simp [hgit]), if_neg (by simp [hat])]

/-- Witness for C1: each conditional conjunct applied at a concrete input —
a matched header `@@ -7,2 +7,2 @@`, an unmatched `@@ garbage` line, a
`diff --git` terminator, and a deletion line. -/
theorem claim_C1_witness :
    hunkLoop [chars "@@ -7,2 +7,2 @@"] 0 [] = hunkLoop [] 7 [] ∧
    hunkLoop [chars "@@ garbage"] 4 [] = hunkLoop [] 4 [] ∧
    hunkLoop [chars "diff --git a/z b/z"] 4 [3]
      = ([3], [chars "diff --git a/z b/z"]) ∧
    hunkLoop [chars "-gone"] 4 [] =
      hunkLoop []
        (if startsWith (chars "-gone") (chars "+") then 4 else 4 + 1)
        (if startsWith (chars "-gone") (chars "-") then [] ++ [4] else []) :=
  ⟨claim_C1.1 (chars "@@ -7,2 +7,2 @@") [] 0 [] 7 (by decide),
   claim_C1.2.1 (chars "@@ garbage") [] 4 [] (by decide) (by decide),
   claim_C1.2.2.1 (chars "diff --git a/z b/z") [] 4 [3] (by decide),
   claim_C1.2.2.2.1 (chars "-gone") [] 4 [] (by decide) (by decide)⟩

/-! ### Claim C9 -/

/-- C9: a diff block with no textual hunk body yields `deletedLines = []`.
After the header line (and, for a `deleted file`/`new file` mode line, one
further discarded line), an absent next line ends the block; a line starting
another `diff --git` is pushed back unconsumed; a `Binary files` line is
consumed with no hunk parsing.  In all three cases the block's record carries
the extracted path and an empty `deletedLines`; concretely, a binary block for
`x.png` parses to the single record with path `x.png` and no deleted lines. -/
theorem claim_C9 :
    parseHunks [] = .ok ([], []) ∧
    (∀ (l : JStr) (rest : List JStr),
        startsWith l (chars "diff --git") = true →
        parseHunks (l :: rest) = .ok ([], l :: rest)) ∧
    (∀ (l : JStr) (rest : List JStr),
        startsWith l (chars "Binary files") = true →
        parseHunks (l :: rest) = .ok ([], rest)) ∧
    (∀ (l2 : JStr) (rest2 : List JStr),
        (startsWith l2 (chars "deleted file") ||
         startsWith l2 (chars "new file")) = false →
        parseDiffBody (l2 :: rest2) = parseHunks rest2) ∧
    (∀ (l2 : JStr) (rest2 : List JStr),
        (startsWith l2 (chars "deleted file") ||
         startsWith l2 (chars "new file")) = true →
        parseDiffBody (l2 :: rest2) = parseHunks rest2.tail) ∧
    (∀ (l1 : JStr) (body : List JStr) (dels : List Nat) (rem : List JStr),
        startsWith l1 (chars "diff --git a/") = true →
        parseDiffBody body = .ok (dels, rem) →
        parseDiffFile (l1 :: body) = .ok (⟨extractPath l1, dels⟩, rem)) ∧
    parseDiff (chars "diff --git a/x.png b/x.png\nindex 83db48f..bf269c4 100644\nBinary files a/x.png and b/x.png differ")
      = .ok [⟨chars "x.png", []⟩] := by
  refine ⟨rfl, fun l rest h => ?_, fun l rest h => ?_,
    fun l2 rest2 h => ?_, fun l2 rest2 h => ?_,
    fun l1 body dels rem h1 h2 => ?_, rfl⟩
  · simp only [parseHunks]
    rw [if_neg (by simp [isEmpty_false_of_startsWith h]), if_pos h]
  · have hgit : startsWith l (chars "diff --git") = false := by
      obtain ⟨t, rfl⟩ := startsWith_head h
      exact startsWith_false_of_head_ne _ _ (by decide)
    simp only [parseHunks]
    rw [if_neg (by simp [isEmpty_false_of_startsWith h]),
      if_neg (by simp [hgit]), if_pos h]
  · rw [parseDiffBody, if_neg (by simp [h])]
  · rw [parseDiffBody, if_pos h]
  · rw [parseDiffFile, if_pos h1, h2]

/-- Witness for C9: the conditional conjuncts applied at concrete inputs — a
pushed-back `diff --git` line, a `Binary files` line, a non-mode index line, a
`new file` mode line, and a full binary block. -/
theorem claim_C9_witness :
    parseHunks [chars "diff --git a/z b/z"]
      = .ok ([], [chars "diff --git a/z b/z"]) ∧
    parseHunks [chars "Binary files a/x.png and b/x.png differ"]
      = .ok ([], []) ∧
    parseDiffBody [chars "index 1..2"] = parseHunks [] ∧
    parseDiffBody [chars "new file mode 100644", chars "index 1..2"]
      = parseHunks [] ∧
    parseDiffFile [chars "diff --git a/x.png b/x.png",
        chars "index 1..2", chars "Binary files a/x.png and b/x.png differ"]
      = .ok (⟨extractPath (chars "diff --git a/x.png b/x.png"), []⟩, []) :=
  ⟨claim_C9.2.1 (chars "diff --git a/z b/z") [] (by decide),
   claim_C9.2.2.1 (chars "Binary files a/x.png and b/x.png differ") []
     (by decide),
   claim_C9.2.2.2.1 (chars "index 1..2") [] (by decide),
   claim_C9.2.2.2.2.1 (chars "new file mode 100644") [chars "index 1..2"]
     (by decide),
   claim_C9.2.2.2.2.2.1 (chars "diff --git a/x.png b/x.png")
     [chars "index 1..2", chars "Binary files a/x.png and b/x.png differ"]
     [] [] (by decide) rfl⟩

theorem parseHunks_error_inv : ∀ (body : List JStr) (e : JsError),
    parseHunks body = .error e →
    e = .typeError ∨
    ∃ l4 l5 rest5, body = l4 :: l5 :: rest5 ∧
      e = .missingPlusPlusPlus l5 ∧
      startsWith l4 (chars "--- ") = true ∧
      startsWith l5 (chars "+++ ") = false := by
  intro body e h
  cases body with
  | nil => exact absurd h (by simp [parseHunks])
  | cons l rest =>
    simp only [parseHunks] at h
    split at h
    · exact absurd h (by simp)
    · split at h
      · exact absurd h (by simp)
      · split at h
        · exact absurd h (by simp)
        · split at h
          · next hdash =>
            split at h
            · left
              rw [Except.error.injEq] at h
              exact h.symm
            · next l5 rest5 =>
              split at h
              · exact absurd h (by simp)
              · next hppp =>
                rw [Except.error.injEq] at h
                exact Or.inr ⟨l, l5, rest5, rfl, h.symm, hdash,
                  Bool.eq_false_iff.mpr hppp⟩
          · exact absurd h (by simp)

theorem parseDiffBody_error_inv (body : List JStr) (e : JsError)
    (h : parseDiffBody body = .error e) :
    e = .typeError ∨ ∃ l5, e = .missingPlusPlusPlus l5 := by
  cases body with
  | nil =>
    rw [parseDiffBody, Except.error.injEq] at h
    exact Or.inl h.symm
  | cons l2 rest2 =>
    simp only [parseDiffBody] at h
    split at h <;>
      rcases parseHunks_error_inv _ _ h with he | ⟨l4, l5, rest5, _, he, _, _⟩
    · exact Or.inl he
    · exact Or.inr ⟨l5, he⟩
    · exact Or.inl he
    · exact Or.inr ⟨l5, he⟩

/-! ### Claim C6 -/

/-- C6: once the input is recognized as a diff, the parser raises a
`MalformedDiffError` in exactly two structural-violation cases, and the whole
parse call then fails.  A block whose first line fails the
`diff --git a/<path> b/<path>` shape raises `invalidHeader`, and conversely
`invalidHeader` arises only from such a first line; inside a block, a `--- `
line followed by a line not starting with `+++ ` raises
`missingPlusPlusPlus`, and conversely `missingPlusPlusPlus` arises only in
exactly that configuration.  Any block error aborts the whole block loop, so
no result sequence is produced; two concrete malformed diffs demonstrate both
failures end to end. -/
theorem claim_C6 :
    (∀ (l : JStr) (rest : List JStr),
        startsWith l (chars "diff --git a/") = false →
        parseDiffFile (l :: rest) = .error (.invalidHeader l)) ∧
    (∀ (l4 l5 : JStr) (rest5 : List JStr),
        startsWith l4 (chars "--- ") = true →
        startsWith l5 (chars "+++ ") = false →
        parseHunks (l4 :: l5 :: rest5) = .error (.missingPlusPlusPlus l5)) ∧
    (∀ (lines : List JStr) (l : JStr),
        parseDiffFile lines = .error (.invalidHeader l) →
        lines.head? = some l ∧ startsWith l (chars "diff --git a/") = false) ∧
    (∀ (body : List JStr) (l5 : JStr),
        parseHunks body = .error (.missingPlusPlusPlus l5) →
        ∃ l4 rest5, body = l4 :: l5 :: rest5 ∧
          startsWith l4 (chars "--- ") = true ∧
          startsWith l5 (chars "+++ ") = false) ∧
    (∀ (l : JStr) (rest : List JStr) (e : JsError),
        parseDiffFile (l :: rest) = .error e →
        parseDiffLoopGo (l :: rest).length (l :: rest) = .error e) ∧
    parseDiff (chars "diff --git nonsense")
      = .error (.invalidHeader (chars "diff --git nonsense")) ∧
    parseDiff (chars "diff --git a/q b/q\nindex 1..2\n--- a/q\nwrong")
      = .error (.missingPlusPlusPlus (chars "wrong")) := by
  refine ⟨fun l rest h => by rw [parseDiffFile, if_neg (by simp [h])],
    fun l4 l5 rest5 h4 h5 => ?_, fun lines l h => ?_, fun body l5 h => ?_,
    fun l rest e h => ?_, rfl, rfl⟩
  · have hne : l4.isEmpty = false := isEmpty_false_of_startsWith h4
    have hgit : startsWith l4 (chars "diff --git") = false := by
      obtain ⟨t, rfl⟩ := startsWith_head h4
      exact startsWith_false_of_head_ne _ _ (by decide)
    have hbin : startsWith l4 (chars "Binary files") = false := by
      obtain ⟨t, rfl⟩ := startsWith_head h4
      exact startsWith_false_of_head_ne _ _ (by decide)
    simp only [parseHunks]
    rw [if_neg (by simp [hne]), if_neg (by simp [hgit]),
      if_neg (by simp [hbin]), if_pos h4, if_neg (by simp [h5])]
  · cases lines with
    | nil => exact absurd h (by simp [parseDiffFile])
    | cons l1 rest =>
      simp only [parseDiffFile] at h
      split at h
      · next hsw =>
        split at h
        · next e hb =>
          rw [Except.error.injEq] at h
          rcases parseDiffBody_error_inv rest e hb with he | ⟨l5, he⟩ <;>
            simp [he] at h
        · exact absurd h (by simp)
      · next hsw =>
        rw [Except.error.injEq, JsError.invalidHeader.injEq] at h
        subst h
        exact ⟨rfl, Bool.eq_false_iff.mpr hsw⟩
  · rcases parseHunks_error_inv body _ h with he | ⟨l4, l5', rest5, hb, he, h4, h5⟩
    · exact absurd he (by simp)
    · rw [JsError.missingPlusPlusPlus.injEq] at he
      exact ⟨l4, rest5, he ▸ hb, h4, he ▸ h5⟩
  · rw [List.length_cons, parseDiffLoopGo, h]

/-- Witness for C6: the header-shape conjunct, the `+++` conjunct and the
propagation conjunct applied at concrete malformed blocks. -/
theorem claim_C6_witness :
    parseDiffFile [chars "garbage"]
      = .error (.invalidHeader (chars "garbage")) ∧
    parseHunks [chars "--- a/q", chars "wrong"]
      = .error (.missingPlusPlusPlus (chars "wrong")) ∧
    parseDiffLoopGo [chars "garbage"].length [chars "garbage"]
      = .error (.invalidHeader (chars "garbage")) :=
  ⟨claim_C6.1 (chars "garbage") [] (by decide),
   claim_C6.2.1 (chars "--- a/q") (chars "wrong") [] (by decide) (by decide),
   claim_C6.2.2.2.2.1 (chars "garbage") [] (.invalidHeader (chars "garbage"))
     (claim_C6.1 (chars "garbage") [] (by decide))⟩

theorem hunkLoop_ge_one : ∀ (lines : List JStr) (cur : Nat)
    (deleted : List Nat), 1 ≤ cur → (∀ x ∈ deleted, 1 ≤ x) →
    (∀ l ∈ lines, ∀ n, parseHunkHeader l = some n → 1 ≤ n) →
    ∀ x ∈ (hunkLoop lines cur deleted).1, 1 ≤ x
  | [], cur, deleted, _, hdel, _ => by simpa [hunkLoop] using hdel
  | line :: rest, cur, deleted, hcur, hdel, hheaders => by
    by_cases h1 : startsWith line (chars "diff --git") = true
    · rw [hunkLoop, if_pos h1]
      exact hdel
    · rw [Bool.not_eq_true] at h1
      by_cases h2 : startsWith line (chars "@@") = true
      · rw [hunkLoop, if_neg (by simp [h1]), if_pos h2]
        cases hph : parseHunkHeader line with
        | some n =>
          simp only [hph]
          exact hunkLoop_ge_one rest n deleted
            (hheaders line (by simp) n hph) hdel
            (fun l hl => hheaders l (List.mem_cons_of_mem line hl))
        | none =>
          simp only [hph]
          exact hunkLoop_ge_one rest cur deleted hcur hdel
            (fun l hl => hheaders l (List.mem_cons_of_mem line hl))
      · rw [Bool.not_eq_true] at h2
        rw [hunkLoop, if_neg (by simp [h1]), if_neg (by simp [h2])]
        refine hunkLoop_ge_one rest _ _ ?_ ?_
          (fun l hl => hheaders l (List.mem_cons_of_mem line hl))
        · split
          · exact hcur
          · exact Nat.le_succ_of_le hcur
        · split
          · intro x hx
            rcases List.mem_append.mp hx with hx | hx
            · exact hdel x hx
            · rw [List.mem_singleton] at hx
              exact hx ▸ hcur
          · exact hdel

/-! ### Claim C3 -/

/-- Counterexample to C3 as stated: the parser accepts a block whose `-`
body line precedes any matched hunk header; the cursor is still at its
initial value `0`, so `0` is recorded as a deleted line number, violating the
claimed lower bound of `1`. -/
theorem claim_C3_counterexample :
    ¬ (∀ (diff : JStr) (files : List FileInfo),
        parseDiff diff = .ok files →
        ∀ fi ∈ files, ∀ n ∈ fi.deletedLines, 1 ≤ n) := by
  intro h
  have h0 := h
    (chars "diff --git a/a.txt b/a.txt\nindex 1..2 100644\n--- a/a.txt\n+++ b/a.txt\n-gone")
    [⟨chars "a.txt", [0]⟩] rfl ⟨chars "a.txt", [0]⟩ (by simp) 0 (by simp)
  exact absurd h0 (by decide)

/-- C3 amended: every recorded deleted-line number is at least `1` provided
every deletion is recorded under a cursor that came from a matched hunk
header with minus-side start line at least `1` — formally, from any hunk-loop
state whose cursor is at least `1`, whose accumulated deletions are at least
`1`, and whose remaining lines only contain hunk headers with start line at
least `1`, all recorded deleted lines are at least `1`.  (Unconditionally the
bound fails: `parseDiffFile` starts the cursor at `0`, so a `-` line before
the first matched header records `0`, as the counterexample shows; `0` is
also the smallest possible value, since line numbers are naturals.) -/
theorem claim_C3 (lines : List JStr) (cur : Nat) (deleted : List Nat)
    (hcur : 1 ≤ cur) (hdel : ∀ x ∈ deleted, 1 ≤ x)
    (hheaders : ∀ l ∈ lines, ∀ n, parseHunkHeader l = some n → 1 ≤ n) :
    ∀ x ∈ (hunkLoop lines cur deleted).1, 1 ≤ x :=
  hunkLoop_ge_one lines cur deleted hcur hdel hheaders

/-- Witness for C3: the amended bound applied to a single deletion line
processed at cursor `5`; the recorded deleted line `5` is at least `1`. -/
theorem claim_C3_witness :
    1 ≤ 5 ∧ (hunkLoop [chars "-x"] 5 []).1 = [5] := by
  constructor
  · refine claim_C3 [chars "-x"] 5 [] (by decide) (by simp) ?_ 5 ?_
    · intro l hl n hn
      rw [List.mem_singleton] at hl
      subst hl
      rw [show parseHunkHeader (chars "-x") = none from rfl] at hn
      cases hn
    · show 5 ∈ (hunkLoop [chars "-x"] 5 []).1
      decide
  · decide

/-! ### Claim C5 -/

/-- C5: `parse` applied to the empty string, and to any input whose first
line does not start with `diff` (for instance `"not a diff"`), returns the
empty sequence without raising any error. -/
theorem claim_C5 :
    parseDiff [] = .ok [] ∧
    parseDiff (chars "not a diff") = .ok [] ∧
    ∀ diff : JStr, startsWith (firstLine diff) (chars "diff") = false →
      parseDiff diff = .ok [] := by
  refine ⟨rfl, rfl, fun diff h => ?_⟩
  have h' : startsWith diff (chars "diff") = false := by
    rw [← startsWith_takeWhile (fun c => c != '\n') (chars "diff") diff (by decide)]
    exact h
  simp [parseDiff, h']

/-- Witness for C5: the third conjunct applied to the concrete input
`"not a diff"`. -/
theorem claim_C5_witness : parseDiff (chars "not a diff") = .ok [] :=
  claim_C5.2.2 (chars "not a diff") (by decide)

/-! ### Claim C7 -/

/-- C7: team-exclusion fast path.  If no whitelist entry has
`skipTeamPrs = true`, `filterOwnTeam` returns the owners list unchanged and
performs no collaborator invocation: zero team-listing calls and zero
membership fetches. -/
theorem claim_C7 (getTeams : List TeamData)
    (getTeamMembership : JStr → TeamData → TeamMembership)
    (users : List WhitelistUser) (owners : List JStr) (creator : JStr)
    (h : users.any (fun user => user.skipTeamPrs) = false) :
    filterOwnTeam getTeams getTeamMembership users owners creator
      = (owners, 0, 0) := by
  simp [filterOwnTeam, h]

/-- Witness for C7: a whitelist whose single entry has `skipTeamPrs = false`
takes the fast path. -/
theorem claim_C7_witness :
    filterOwnTeam [] (fun _ t => ⟨t.name, []⟩)
        [⟨chars "team-a", [], false⟩] [chars "alice", chars "bob"] (chars "eve")
      = ([chars "alice", chars "bob"], 0, 0) :=
  claim_C7 [] (fun _ t => ⟨t.name, []⟩) [⟨chars "team-a", [], false⟩]
    [chars "alice", chars "bob"] (chars "eve") (by decide)

/-! ### Claim C8 -/

/-- C8: both reviewer-filter stages return an order-preserving, duplication-free
subsequence of their input owners list; the org-membership stage keeps exactly
the owners present in the fetched member roster, and for roster
`[a, b]` with candidates `[a, b, c]` the result is `[a, b]`. -/
theorem claim_C8 :
    (∀ (getTeams : List TeamData)
        (getTeamMembership : JStr → TeamData → TeamMembership)
        (users : List WhitelistUser) (owners : List JStr) (creator : JStr),
        List.Sublist (filterOwnTeam getTeams getTeamMembership users owners creator).1
          owners) ∧
    (∀ (currentMembers owners : List JStr),
        List.Sublist (filterPrivateRepo currentMembers owners) owners) ∧
    (∀ (currentMembers owners : List JStr) (x : JStr),
        x ∈ filterPrivateRepo currentMembers owners ↔
          x ∈ owners ∧ x ∈ currentMembers) ∧
    filterPrivateRepo [chars "a", chars "b"] [chars "a", chars "b", chars "c"]
      = [chars "a", chars "b"] := by
  refine ⟨fun getTeams getTeamMembership users owners creator => ?_,
    fun currentMembers owners => List.filter_sublist owners,
    fun currentMembers owners x => ?_, by decide⟩
  · cases hany : users.any fun user => user.skipTeamPrs with
    | false => simp [filterOwnTeam, hany]
    | true =>
      simp only [filterOwnTeam, hany, Bool.not_true, Bool.false_eq_true,
        if_false]
      exact List.filter_sublist owners
  · rw [filterPrivateRepo]
    simp only [List.mem_filter, List.any_beq']

theorem foldl_filter_eq (m : JStr → JStr → Bool) :
    ∀ (bl : List JStr) (l : List FileInfo),
      bl.foldl (fun fs glob => fs.filter fun file => !m file.path glob) l
        = l.filter fun file => bl.all fun glob => !m file.path glob := by
  intro bl
  induction bl with
  | nil => intro l; simp
  | cons g bl ih =>
    intro l
    rw [List.foldl_cons, ih, List.filter_filter]
    refine List.filter_congr fun file _ => ?_
    rw [List.all_cons, Bool.and_comm]

/-! ### Claim C2 -/

/-- C2: file selection sorts descending by `deletedLines.length`, removes
blacklisted files, and truncates, in that order.  Consequently the selected
list is sorted non-increasing by `deletedLines.length`, and its length is at
most the minimum of `numFilesToCheck` and the number of files matching no
blacklist glob. -/
theorem claim_C2 (minimatch : JStr → JStr → Bool) (fileBlacklist : List JStr)
    (numFilesToCheck : Nat) (files : List FileInfo) :
    List.Pairwise
      (fun a b => b.deletedLines.length ≤ a.deletedLines.length)
      (selectFiles minimatch fileBlacklist numFilesToCheck files) ∧
    (selectFiles minimatch fileBlacklist numFilesToCheck files).length ≤
      min numFilesToCheck
        (files.filter fun file =>
          fileBlacklist.all fun glob => !minimatch file.path glob).length := by
  have hsort := @List.sorted_mergeSort FileInfo
    (fun a b : FileInfo =>
      decide (b.deletedLines.length ≤ a.deletedLines.length))
    (fun a b c hab hbc => by
      simp only [decide_eq_true_eq] at *
      exact Nat.le_trans hbc hab)
    (fun a b => by
      simp only [Bool.or_eq_true, decide_eq_true_eq]
      exact Nat.le_total _ _)
    files
  have hpair : (files.mergeSort fun a b : FileInfo =>
      decide (b.deletedLines.length ≤ a.deletedLines.length)).Pairwise
        fun a b => b.deletedLines.length ≤ a.deletedLines.length :=
    hsort.imp fun h => by simpa using h
  constructor
  · simp only [selectFiles, foldl_filter_eq]
    exact List.Pairwise.sublist (List.take_sublist _ _)
      (List.Pairwise.filter _ hpair)
  · simp only [selectFiles, foldl_filter_eq, List.length_take]
    have hperm := (List.mergeSort_perm files fun a b : FileInfo =>
      decide (b.deletedLines.length ≤ a.deletedLines.length)).filter
      fun file => fileBlacklist.all fun glob => !minimatch file.path glob
    rw [hperm.length_eq]

/-! ### Claim C4 -/

/-- C4: the owner lookup depends only on the last selected file.  For every
non-empty file list, `getPathInfo` returns exactly what it returns on the
singleton list holding the last file: the filter construct at source lines
294-296 only records the last-seen path, and ownership is not aggregated
across the other files. -/
theorem claim_C4 {α : Type} (pathOf : α → JStr) (pathInfo : List α)
    (files : List FileInfo) (h : files ≠ []) :
    getPathInfo pathOf pathInfo files
      = getPathInfo pathOf pathInfo [files.getLast h] := by
  simp only [getPathInfo, List.getLast?_map, List.getLast?_eq_getLast files h,
    List.getLast?_singleton, Option.map_some']

/-- Witness for C4: on a two-file list the lookup coincides with the lookup
on the second file alone. -/
theorem claim_C4_witness :
    getPathInfo (fun _ : Unit => []) []
        [⟨chars "a", []⟩, ⟨chars "b/c", [1]⟩]
      = getPathInfo (fun _ : Unit => []) [] [⟨chars "b/c", [1]⟩] := by
  have h : ([⟨chars "a", []⟩, ⟨chars "b/c", [1]⟩] : List FileInfo) ≠ [] := by
    simp
  have h2 := claim_C4 (fun _ : Unit => []) []
    [⟨chars "a", []⟩, ⟨chars "b/c", [1]⟩] h
  rw [show ([⟨chars "a", []⟩, ⟨chars "b/c", [1]⟩] : List FileInfo).getLast h
      = ⟨chars "b/c", [1]⟩ from rfl] at h2
  exact h2

/-! ### Claim C10 -/

/-- C10: when the selected file list is empty, `getPathInfo` reads a property
of the undefined `fullPath` and fails with a runtime `TypeError`, and
`checkRepoPath` therefore errors rather than producing an empty ownership
result. -/
theorem claim_C10 {α : Type} (pathOf : α → JStr) (pathInfo : List α)
    (minimatch : JStr → JStr → Bool) (fileBlacklist : List JStr)
    (numFilesToCheck : Nat) (diff : JStr) (files : List FileInfo)
    (h1 : parseDiff diff = .ok files)
    (h2 : selectFiles minimatch fileBlacklist numFilesToCheck files = []) :
    getPathInfo pathOf pathInfo
        (selectFiles minimatch fileBlacklist numFilesToCheck files)
      = .error .typeError ∧
    checkRepoPath pathOf pathInfo minimatch fileBlacklist numFilesToCheck diff
      = .error .typeError := by
  constructor
  · rw [h2]; rfl
  · simp only [checkRepoPath, h1, h2]
    rfl

/-- Witness for C10: the empty diff parses to no files, the selection is
empty, and the pipeline raises the type error. -/
theorem claim_C10_witness :
    getPathInfo (fun _ : Unit => []) [] (selectFiles (fun _ _ => false) [] 5 [])
      = .error .typeError ∧
    checkRepoPath (fun _ : Unit => []) [] (fun _ _ => false) [] 5 []
      = .error .typeError :=
  claim_C10 (fun _ : Unit => []) [] (fun _ _ => false) [] 5 [] [] rfl
    (by simp [selectFiles])

/-! ### Adequacy of the loop fuel

Each `parseDiffFile` call consumes at least the block's header line, so the
`while` loop of source lines 160-162 iterates at most once per input line.
The following theorems prove that the fuel `lines.length` used by `parseDiff`
is therefore never exhausted: any fuel at least `lines.length` computes the
same result. -/

theorem hunkLoop_rem_length : ∀ (lines : List JStr) (cur : Nat)
    (del : List Nat), (hunkLoop lines cur del).2.length ≤ lines.length
  | [], _, _ => by simp [hunkLoop]
  | line :: rest, cur, del => by
    by_cases h1 : startsWith line (chars "diff --git") = true
    · rw [hunkLoop, if_pos h1]
    · rw [Bool.not_eq_true] at h1
      by_cases h2 : startsWith line (chars "@@") = true
      · rw [hunkLoop, if_neg (by simp [h1]), if_pos h2]
        cases hph : parseHunkHeader line with
        | some n =>
          simp only [hph]
          exact Nat.le_succ_of_le (hunkLoop_rem_length rest n del)
        | none =>
          simp only [hph]
          exact Nat.le_succ_of_le (hunkLoop_rem_length rest cur del)
      · rw [Bool.not_eq_true] at h2
        rw [hunkLoop, if_neg (by simp [h1]), if_neg (by simp [h2])]
        exact Nat.le_succ_of_le (hunkLoop_rem_length rest _ _)

theorem parseHunks_rem_length (body : List JStr) (dels : List Nat)
    (rem : List JStr) (h : parseHunks body = .ok (dels, rem)) :
    rem.length ≤ body.length := by
  cases body with
  | nil =>
    simp only [parseHunks, Except.ok.injEq, Prod.mk.injEq] at h
    rw [← h.2]
  | cons l rest =>
    simp only [parseHunks] at h
    split at h
    · rw [Except.ok.injEq, Prod.mk.injEq] at h
      rw [← h.2]
      exact Nat.le_succ_of_le (Nat.le_refl _)
    · split at h
      · rw [Except.ok.injEq, Prod.mk.injEq] at h
        rw [← h.2]
      · split at h
        · rw [Except.ok.injEq, Prod.mk.injEq] at h
          rw [← h.2]
          exact Nat.le_succ_of_le (Nat.le_refl _)
        · split at h
          · split at h
            · exact absurd h (by simp)
            · next l5 rest5 =>
              split at h
              · rw [Except.ok.injEq] at h
                have h5 : rem.length ≤ rest5.length := by
                  have := hunkLoop_rem_length rest5 0 []
                  rw [h] at this
                  exact this
                simp only [List.length_cons]
                omega
              · exact absurd h (by simp)
          · rw [Except.ok.injEq, Prod.mk.injEq] at h
            rw [← h.2]
            exact Nat.le_succ_of_le (Nat.le_refl _)

theorem parseDiffBody_rem_length (body : List JStr) (dels : List Nat)
    (rem : List JStr) (h : parseDiffBody body = .ok (dels, rem)) :
    rem.length ≤ body.length := by
  cases body with
  | nil => exact absurd h (by simp [parseDiffBody])
  | cons l2 rest2 =>
    simp only [parseDiffBody] at h
    split at h
    · have := parseHunks_rem_length _ _ _ h
      have htail : rest2.tail.length ≤ rest2.length := by
        cases rest2 <;> simp
      simp only [List.length_cons]
      omega
    · have := parseHunks_rem_length _ _ _ h
      simp only [List.length_cons]
      omega

theorem parseDiffFile_rem_length (l : JStr) (rest : List JStr)
    (fi : FileInfo) (rem : List JStr)
    (h : parseDiffFile (l :: rest) = .ok (fi, rem)) :
    rem.length ≤ rest.length := by
  simp only [parseDiffFile] at h
  split at h
  · split at h
    · exact absurd h (by simp)
    · next dels rem2 heq =>
      rw [Except.ok.injEq, Prod.mk.injEq] at h
      rw [← h.2]
      exact parseDiffBody_rem_length rest dels rem2 heq
  · exact absurd h (by simp)

theorem parseDiffLoopGo_fuel : ∀ (f : Nat) (lines : List JStr),
    lines.length ≤ f →
    parseDiffLoopGo f lines = parseDiffLoopGo lines.length lines := by
  intro f
  induction f using Nat.strong_induction_on with
  | _ f ih =>
    intro lines hlen
    cases lines with
    | nil => cases f <;> rfl
    | cons l rest =>
      cases f with
      | zero => simp at hlen
      | succ f =>
        rw [List.length_cons] at hlen ⊢
        cases hp : parseDiffFile (l :: rest) with
        | error e => simp [parseDiffLoopGo, hp]
        | ok fr =>
          obtain ⟨fi, rem⟩ := fr
          have hr : rem.length ≤ rest.length :=
            parseDiffFile_rem_length l rest fi rem hp
          have h1 : parseDiffLoopGo f rem = parseDiffLoopGo rem.length rem :=
            ih f (Nat.lt_succ_self f) rem (by omega)
          have h2 : parseDiffLoopGo rest.length rem
              = parseDiffLoopGo rem.length rem :=
            ih rest.length (by omega) rem hr
          simp [parseDiffLoopGo, hp, h1, h2]

end MentionBot
